import Mathlib

/-
Verification of the message-processing pipeline of the WhatsApp/Gemini chatbot
server (src/app.js).  The file `app.js` contains two concatenated copies of the
server; where the copies differ we model both (suffix `1` for the first copy,
suffix `2` for the second).

Modelling conventions:
* JavaScript strings are modelled as `List Char`.
* `text.split(sep)` for a one-character separator is `splitOnChar`, and for the
  two-character literal separator backslash-n (the JS source text `'\\n'`,
  i.e. the characters `\` and `n`, not the newline character) it is
  `splitOnBackslashN`.
* `array.join(sep)` is `joinWith`.
* JSON documents (webhook payloads, stored conversation records, Gemini
  responses) are modelled by the inductive type `JVal`; JavaScript truthiness
  is `jsTruthy`, and a property access that throws a TypeError (access on
  `undefined`/`null`) is modelled in the `Except Unit` monad.
* The persistence layer stores, per user key, the parsed JSON document
  (`none` = no file, ENOENT; `some none` = file whose contents fail JSON
  parsing; `some (some v)` = file parsing to the document `v`).  JSON
  stringify/parse of a document round-trips, so `saveConversationHistory`
  stores the document itself.
* The network send capability reports success as a boolean indexed by the
  call number, and the delivery loop is recorded as a trace of send/delay
  events so that ordering and the inter-chunk delays are visible.
-/

namespace WaBot

/-! ## String primitives (JavaScript `split`, `join`, `trim`) -/

/-- JS `s.split(sep)` for a single-character separator `sep`. -/
def splitOnChar (sep : Char) : List Char → List (List Char)
  | [] => [[]]
  | c :: rest =>
    if c = sep then [] :: splitOnChar sep rest
    else
      match splitOnChar sep rest with
      | [] => [[c]]
      | hd :: tl => (c :: hd) :: tl

/-- JS `text.split('\\n')`: split on the literal two-character sequence
backslash followed by the letter n (NOT the newline character), scanning
left to right, non-overlapping. -/
def splitOnBackslashN : List Char → List (List Char)
  | [] => [[]]
  | [c] => [[c]]
  | c₁ :: c₂ :: rest =>
    if c₁ = '\\' ∧ c₂ = 'n' then
      [] :: splitOnBackslashN rest
    else
      match splitOnBackslashN (c₂ :: rest) with
      | [] => [[c₁]]
      | hd :: tl => (c₁ :: hd) :: tl

/-- Whether the literal two-character sequence backslash-n occurs in `s`. -/
def containsBackslashN : List Char → Bool
  | [] => false
  | [_] => false
  | c₁ :: c₂ :: rest => (c₁ = '\\' && c₂ = 'n') || containsBackslashN (c₂ :: rest)

/-- JS `array.join(sep)`. -/
def joinWith (sep : List Char) : List (List Char) → List Char
  | [] => []
  | [l] => l
  | l :: ls => l ++ sep ++ joinWith sep ls

/-- Whitespace set of JS `String.prototype.trim` (restricted to the ASCII
whitespace characters that can occur in our `Char` model). -/
def jsWhitespace (c : Char) : Bool :=
  c = ' ' || c = '\t' || c = '\n' || c = '\r' || c = '\x0b' || c = '\x0c'

/-- JS `s.trim()`: remove leading and trailing whitespace. -/
def jsTrim (s : List Char) : List Char :=
  ((s.dropWhile jsWhitespace).reverse.dropWhile jsWhitespace).reverse

/-! ## `splitMessage` (app.js lines 112-166, identical second copy 515-566) -/

/-- Mutable state of `splitMessage`: the chunks emitted so far (already joined
with the newline character), the lines of the chunk under construction, and
the running line count. -/
structure SplitSt where
  chunks : List (List Char)
  currentChunk : List (List Char)
  currentLineCount : Nat

/-- The flush-then-push pattern that `splitMessage` performs at each of its
three `currentChunk.push(...)` sites: if the current chunk is full, emit it
(joined with `'\n'`) and start a new chunk, then append the line and bump the
line count. -/
def pushLine (maxLines : Nat) (st : SplitSt) (line : List Char) : SplitSt :=
  if st.currentLineCount ≥ maxLines then
    { chunks := st.chunks ++ [joinWith ['\n'] st.currentChunk]
      currentChunk := [line]
      currentLineCount := 1 }
  else
    { chunks := st.chunks
      currentChunk := st.currentChunk ++ [line]
      currentLineCount := st.currentLineCount + 1 }

/-- One iteration of the inner `for (const word of words)` loop of
`splitMessage`; the extra components are `currentLine` (words of the line
being built) and `currentLength`. -/
def wordStep (maxLines maxCharsPerLine : Nat) :
    SplitSt × List (List Char) × Nat → List Char → SplitSt × List (List Char) × Nat
  | (st, currentLine, currentLength), word =>
    if currentLength + word.length + 1 ≤ maxCharsPerLine then
      (st, currentLine ++ [word], currentLength + word.length + 1)
    else
      (pushLine maxLines st (joinWith [' '] currentLine), [word], word.length)

/-- The body of the outer `for (const paragraph of paragraphs)` loop of
`splitMessage`. -/
def processParagraph (maxLines maxCharsPerLine : Nat) (st : SplitSt)
    (paragraph : List Char) : SplitSt :=
  if paragraph.length > maxCharsPerLine then
    let r := (splitOnChar ' ' paragraph).foldl (wordStep maxLines maxCharsPerLine) (st, [], 0)
    if r.2.1 ≠ [] then pushLine maxLines r.1 (joinWith [' '] r.2.1) else r.1
  else
    pushLine maxLines st paragraph

/-- `splitMessage(text, maxLines = 3, maxCharsPerLine = 100)` from app.js:
split the text on the literal backslash-n marker into paragraphs, word-wrap
long paragraphs, and group the resulting lines into chunks of at most
`maxLines` lines, each chunk joined with the newline character. -/
def splitMessage (text : List Char) (maxLines : Nat := 3) (maxCharsPerLine : Nat := 100) :
    List (List Char) :=
  let final := (splitOnBackslashN text).foldl (processParagraph maxLines maxCharsPerLine)
    { chunks := [], currentChunk := [], currentLineCount := 0 }
  if final.currentChunk ≠ [] then final.chunks ++ [joinWith ['\n'] final.currentChunk]
  else final.chunks

/-! ### Decomposed view of `splitMessage`

`splitMessage` is the composition of a pure line-production phase (paragraph
splitting plus greedy word wrapping, spec §4.2) and a chunk-grouping phase.
The definitions below separate the two phases; the bridge theorems prove the
composition equal to `splitMessage`. -/

/-- One step of the greedy word wrap of a long paragraph, recording only the
produced lines (no chunk state): state is (lines emitted, current line words,
current length). -/
def wrapStep (maxCharsPerLine : Nat) :
    List (List Char) × List (List Char) × Nat → List Char → List (List Char) × List (List Char) × Nat
  | (done, currentLine, currentLength), word =>
    if currentLength + word.length + 1 ≤ maxCharsPerLine then
      (done, currentLine ++ [word], currentLength + word.length + 1)
    else
      (done ++ [joinWith [' '] currentLine], [word], word.length)

/-- The sequence of lines `splitMessage` produces from one paragraph: a short
paragraph is one line; a long paragraph is greedily word-wrapped. -/
def wrapParagraph (maxCharsPerLine : Nat) (paragraph : List Char) : List (List Char) :=
  if paragraph.length > maxCharsPerLine then
    let r := (splitOnChar ' ' paragraph).foldl (wrapStep maxCharsPerLine) ([], [], 0)
    if r.2.1 ≠ [] then r.1 ++ [joinWith [' '] r.2.1] else r.1
  else [paragraph]

/-- The full line sequence of the wrapping phase of `splitMessage` (spec §4.2):
paragraphs in order, each expanded to its wrapped lines. -/
def messageLines (maxCharsPerLine : Nat) (text : List Char) : List (List Char) :=
  (splitOnBackslashN text).flatMap (wrapParagraph maxCharsPerLine)

/-- Chunk-grouping state in the structured view: chunks are kept as lists of
lines instead of joined strings. -/
structure SplitStL where
  chunks : List (List (List Char))
  currentChunk : List (List Char)
  currentLineCount : Nat

/-- `pushLine` in the structured view. -/
def pushLineL (maxLines : Nat) (st : SplitStL) (line : List Char) : SplitStL :=
  if st.currentLineCount ≥ maxLines then
    { chunks := st.chunks ++ [st.currentChunk]
      currentChunk := [line]
      currentLineCount := 1 }
  else
    { chunks := st.chunks
      currentChunk := st.currentChunk ++ [line]
      currentLineCount := st.currentLineCount + 1 }

/-- Group a line sequence into chunks of at most `maxLines` lines, joined
with the newline character (the chunk-grouping phase of `splitMessage`). -/
def chunkLines (maxLines : Nat) (lines : List (List Char)) : List (List Char) :=
  let final := lines.foldl (pushLine maxLines)
    { chunks := [], currentChunk := [], currentLineCount := 0 }
  if final.currentChunk ≠ [] then final.chunks ++ [joinWith ['\n'] final.currentChunk]
  else final.chunks

/-- Group a line sequence into chunks of at most `maxLines` lines, keeping
each chunk as its list of lines. -/
def chunkLinesL (maxLines : Nat) (lines : List (List Char)) : List (List (List Char)) :=
  let final := lines.foldl (pushLineL maxLines)
    { chunks := [], currentChunk := [], currentLineCount := 0 }
  if final.currentChunk ≠ [] then final.chunks ++ [final.currentChunk]
  else final.chunks

/-- The chunks of `splitMessage`, each as its list of produced lines. -/
def splitMessageLines (text : List Char) (maxLines : Nat := 3) (maxCharsPerLine : Nat := 100) :
    List (List (List Char)) :=
  chunkLinesL maxLines (messageLines maxCharsPerLine text)

/-! ## JSON documents and JavaScript semantics helpers -/

/-- A parsed JSON document (the value space of `JSON.parse`). -/
inductive JVal where
  | null : JVal
  | bool : Bool → JVal
  | num : Int → JVal
  | str : List Char → JVal
  | arr : List JVal → JVal
  | obj : List (List Char × JVal) → JVal

/-- JS truthiness of a value, with `none` standing for `undefined`. -/
def jsTruthy : Option JVal → Bool
  | none => false
  | some .null => false
  | some (.bool b) => b
  | some (.num n) => n ≠ 0
  | some (.str s) => s ≠ []
  | some (.arr _) => true
  | some (.obj _) => true

/-- First binding of a key in a JS object literal. -/
def lookupField (fields : List (List Char × JVal)) (key : List Char) : Option JVal :=
  match fields with
  | [] => none
  | (k, v) :: rest => if k = key then some v else lookupField rest key

/-- Property access `v[key]` that cannot throw: on an object, look the key up;
on any other defined value it yields `undefined`.  Used where the source has
already checked the receiver truthy. -/
def jsFieldSafe (v : Option JVal) (key : List Char) : Option JVal :=
  match v with
  | some (.obj fields) => lookupField fields key
  | _ => none

/-- Property access `v.key` in the exception monad: access on `undefined` or
`null` throws a TypeError; on an object it looks the key up; on any other
value it yields `undefined`. -/
def jsField (v : Option JVal) (key : List Char) : Except Unit (Option JVal) :=
  match v with
  | none => .error ()
  | some .null => .error ()
  | some (.obj fields) => .ok (lookupField fields key)
  | some _ => .ok none

/-- Index access `v[i]` in the exception monad: throws on `undefined`/`null`,
indexes arrays and strings, yields `undefined` otherwise. -/
def jsIndex (v : Option JVal) (i : Nat) : Except Unit (Option JVal) :=
  match v with
  | none => .error ()
  | some .null => .error ()
  | some (.arr xs) => .ok (xs.get? i)
  | some (.str s) => .ok ((s.get? i).map fun c => .str [c])
  | some _ => .ok none

/-- The value of `v.length` where defined (arrays and strings). -/
def jsLength : Option JVal → Option Nat
  | some (.arr xs) => some xs.length
  | some (.str s) => some s.length
  | _ => none

/-- JS `x.length > 0` where `x.length` may be `undefined`
(`undefined > 0` is false). -/
def jsLengthPos (v : Option JVal) : Bool :=
  match jsLength v with
  | some n => 0 < n
  | none => false

/-- Coercion used by a method call `v.trim()`: only strings have `trim`;
calling it on anything else throws a TypeError.  The trim itself is applied
by the caller (`jsTrim`). -/
def jsAsString (v : Option JVal) : Except Unit (List Char) :=
  match v with
  | some (.str s) => .ok s
  | _ => .error ()

/-! ## Conversation store (app.js lines 66-102 first copy, 487-513 second) -/

/-- What a stored conversation file holds: `none` = the file does not exist
(ENOENT); `some none` = the file exists but `JSON.parse` fails (SyntaxError);
`some (some v)` = the file parses to the document `v`. -/
abbrev StoredRecord := Option (Option JVal)

/-- The persistence capability: one optional record per user key. -/
abbrev StoreT := List Char → StoredRecord

/-- First copy's validity test for one history item:
`typeof item === 'object' && 'role' in item && 'parts' in item`.
A parsed-JSON item that is not an object literal fails the test (arrays have
no `role`/`parts` keys; primitives are not of type object; `null` makes the
`in` operator throw, which the surrounding catch also turns into an empty
history). -/
def validItem1 (v : JVal) : Bool :=
  match v with
  | .obj fields => (lookupField fields "role".data).isSome && (lookupField fields "parts".data).isSome
  | _ => false

/-- Second copy's validity test for one history item:
`item.role && item.parts` (truthiness of the two properties). -/
def validItem2 (v : JVal) : Bool :=
  match v with
  | .obj fields => jsTruthy (lookupField fields "role".data) && jsTruthy (lookupField fields "parts".data)
  | _ => false

/-- The first copy's whole-document validity test: an array all of whose
items pass `validItem1`. -/
def validHistory1 (v : JVal) : Bool :=
  match v with
  | .arr items => items.all validItem1
  | _ => false

/-- `loadConversationHistory` (first copy, lines 66-88): missing file, parse
failure, a non-array document, or an array with an invalid item all produce
the empty history; a valid array is returned as is. -/
def loadConversationHistory (stored : StoredRecord) : List JVal :=
  match stored with
  | none => []
  | some none => []
  | some (some (.arr items)) => if items.all validItem1 then items else []
  | some (some _) => []

/-- `loadConversationHistory` (second copy, lines 487-504); same shape with
the truthiness item test. -/
def loadConversationHistory2 (stored : StoredRecord) : List JVal :=
  match stored with
  | none => []
  | some none => []
  | some (some (.arr items)) => if items.all validItem2 then items else []
  | some (some _) => []

/-- `saveConversationHistory(userId, history)`: overwrite the record for the
key with `JSON.stringify(history)` (stringify/parse round-trips, so the
stored document is the history array itself). -/
def saveConversationHistory (store : StoreT) (userId : List Char) (history : List JVal) : StoreT :=
  fun k => if k = userId then some (some (.arr history)) else store k

/-! ## Reply generator `getGeminiResponse` (lines 174-241 first copy, 568-612 second) -/

/-- Fixed reply when the Gemini API key is not configured. -/
def apologyText : List Char :=
  "Sorry, I'm having trouble connecting to my brain right now (API key issue).".data

/-- Fixed reply when the Gemini call (or response handling) throws. -/
def tryAgainLaterText : List Char :=
  "I'm having trouble processing that request with my AI brain. Please try again later.".data

/-- First copy's fixed reply when no tolerated response shape yields text. -/
def unexpectedFormatText : List Char :=
  "I received an unexpected response format from Gemini. Please try again.".data

/-- Second copy's fixed reply when the candidates extraction throws. -/
def unusualStructureText : List Char :=
  "I received an unusual response structure from Gemini. Please try again.".data

/-- Second copy's fixed reply when no response shape yields text. -/
def emptyResponseText : List Char :=
  "I received an empty or unexpected response from Gemini. Please try again.".data

/-- Shape 1 of the first copy:
`response.response.candidates[0].content.parts[0].text`, guarded by the
truthiness/length chain of app.js lines 219-224.  Yields `some` of the raw
text when the guard passes, `none` when some guard is falsy (fall through to
the next shape), and throws when the committed extraction throws. -/
def gemShapeNested (resp : Option JVal) : Except Unit (Option (List Char)) := do
  if !jsTruthy resp then return none
  let rr ← jsField resp "response".data
  if !jsTruthy rr then return none
  let cands ← jsField rr "candidates".data
  if !jsTruthy cands then return none
  if !jsLengthPos cands then return none
  let c0 ← jsIndex cands 0
  let content ← jsField c0 "content".data
  if !jsTruthy content then return none
  let parts ← jsField content "parts".data
  if !jsTruthy parts then return none
  if !jsLengthPos parts then return none
  let p0 ← jsIndex parts 0
  let t ← jsField p0 "text".data
  let s ← jsAsString t
  return some s

/-- Shape 2 of the first copy: `response.text` (lines 228-229). -/
def gemShapeText (resp : Option JVal) : Except Unit (Option (List Char)) := do
  if !jsTruthy resp then return none
  let t ← jsField resp "text".data
  if !jsTruthy t then return none
  let s ← jsAsString t
  return some s

/-- Shape 3 of the first copy:
`response.candidates[0].content.parts[0].text` (lines 230-233); the guard does
not check `parts.length`, so the committed extraction can throw. -/
def gemShapeCandidates (resp : Option JVal) : Except Unit (Option (List Char)) := do
  if !jsTruthy resp then return none
  let cands ← jsField resp "candidates".data
  if !jsTruthy cands then return none
  if !jsLengthPos cands then return none
  let c0 ← jsIndex cands 0
  let content ← jsField c0 "content".data
  if !jsTruthy content then return none
  let parts ← jsField content "parts".data
  if !jsTruthy parts then return none
  let p0 ← jsIndex parts 0
  let t ← jsField p0 "text".data
  let s ← jsAsString t
  return some s

/-- The first copy's response handling: try the three shapes in order inside
the surrounding try block, yielding the raw (untrimmed) extracted text. -/
def extractGemini1 (resp : JVal) : Except Unit (Option (List Char)) := do
  match ← gemShapeNested (some resp) with
  | some s => return some s
  | none =>
    match ← gemShapeText (some resp) with
    | some s => return some s
    | none => gemShapeCandidates (some resp)

/-- `getGeminiResponse` (first copy, lines 174-241).  The external completion
capability is `complete`, called with the user text and the loaded history; it
either rejects or resolves to a JSON-like response document.  A successfully
extracted text is returned trimmed (`.trim()` at each return site). -/
def getGeminiResponse1 (apiKeyConfigured : Bool)
    (complete : List Char → List JVal → Except Unit JVal)
    (messageText : List Char) (conversationHistory : List JVal) : List Char :=
  if !apiKeyConfigured then apologyText
  else
    match (do extractGemini1 (← complete messageText conversationHistory) :
        Except Unit (Option (List Char))) with
    | .ok (some s) => jsTrim s
    | .ok none => unexpectedFormatText
    | .error _ => tryAgainLaterText

/-- Outcome of the second copy's response handling: extracted raw text, the
inner-catch "unusual structure" case, or the no-shape case. -/
inductive GemOutcome2 where
  | text : List Char → GemOutcome2
  | unusual : GemOutcome2
  | empty : GemOutcome2

/-- The second copy's response handling (identical in both of its branches,
lines 581-592 and 595-606): `response.text`, else the candidates chain inside
an inner try/catch that yields the "unusual structure" outcome. -/
def extractGemini2 (resp : JVal) : Except Unit GemOutcome2 := do
  if jsTruthy (some resp) && jsTruthy (jsFieldSafe (some resp) "text".data) then
    let s ← jsAsString (jsFieldSafe (some resp) "text".data)
    return .text s
  else if jsTruthy (some resp) && jsTruthy (jsFieldSafe (some resp) "candidates".data) then
    match (do
        let cands := jsFieldSafe (some resp) "candidates".data
        let c0 ← jsIndex cands 0
        let content ← jsField c0 "content".data
        let parts ← jsField content "parts".data
        let p0 ← jsIndex parts 0
        let t ← jsField p0 "text".data
        jsAsString t : Except Unit (List Char)) with
    | .ok s => return .text s
    | .error _ => return .unusual
  else
    return .empty

/-- `getGeminiResponse` (second copy, lines 568-612). -/
def getGeminiResponse2 (apiKeyConfigured : Bool)
    (complete : List Char → List JVal → Except Unit JVal)
    (messageText : List Char) (conversationHistory : List JVal) : List Char :=
  if !apiKeyConfigured then apologyText
  else
    match (do extractGemini2 (← complete messageText conversationHistory) :
        Except Unit GemOutcome2) with
    | .ok (.text s) => jsTrim s
    | .ok .unusual => unusualStructureText
    | .ok .empty => emptyResponseText
    | .error _ => tryAgainLaterText

/-! ## Delivery loop (app.js lines 380-391 first copy, 736-747 second) -/

/-- Observable events of the delivery loop: one send attempt per chunk (with
the boolean the send capability reported) and the randomized inter-chunk
delay. -/
inductive DeliveryEvent (α : Type) where
  | send : α → Bool → DeliveryEvent α
  | delay : DeliveryEvent α
deriving DecidableEq

/-- The delivery `for` loop from position `i`: send the chunk; on failure
break; otherwise delay if (and only if) another chunk follows. -/
def deliveryLoopAux (sendResult : Nat → Bool) (i : Nat) :
    List α → List (DeliveryEvent α)
  | [] => []
  | c :: rest =>
    let ok := sendResult i
    .send c ok ::
      (if ok then
        match rest with
        | [] => []
        | _ :: _ => .delay :: deliveryLoopAux sendResult (i + 1) rest
      else [])

/-- Trace of the chunk-delivery loop: `sendResult i` is the boolean the send
capability reports for its `i`-th call. -/
def deliveryLoop (sendResult : Nat → Bool) (chunks : List α) : List (DeliveryEvent α) :=
  deliveryLoopAux sendResult 0 chunks

/-- The chunks for which a send was attempted, in order. -/
def attemptedChunks : List (DeliveryEvent α) → List α
  | [] => []
  | .send c _ :: rest => c :: attemptedChunks rest
  | .delay :: rest => attemptedChunks rest

/-- The chunks whose send succeeded, in order. -/
def deliveredChunks : List (DeliveryEvent α) → List α
  | [] => []
  | .send c true :: rest => c :: deliveredChunks rest
  | .send _ false :: rest => deliveredChunks rest
  | .delay :: rest => deliveredChunks rest

/-! ## Webhook processors (app.js lines 328-413 first copy, 687-766 second) -/

/-- `messageInfo.key`. -/
structure MessageKey where
  fromMe : Bool
  remoteJid : Option (List Char)

/-- `messageInfo.message`: the direct `conversation` text (present or absent)
and the `extendedTextMessage.text` chain collapsed to its text (absent when
`extendedTextMessage` is absent or has no text). -/
structure MessageContent where
  conversation : Option (List Char)
  extendedTextMessageText : Option (List Char)

/-- `data.data.messages` of a `messages.upsert` webhook event. -/
structure MessageInfo where
  key : Option MessageKey
  message : Option MessageContent
  messageStubType : Option Int

/-- The message type tag the handlers compute. -/
inductive MsgType where
  | text : MsgType
  | unknown : MsgType
deriving DecidableEq

/-- Everything a webhook invocation produces: the HTTP status and optional
`message` field of the JSON response, the resulting conversation store, and
the trace of the delivery loop. -/
structure HandlerResult where
  status : Nat
  detail : Option (List Char)
  store : StoreT
  trace : List (DeliveryEvent (List Char))

/-- Truthiness of `messageInfo.key && messageInfo.key.fromMe`. -/
def keyFromMe (mi : MessageInfo) : Bool :=
  match mi.key with
  | some k => k.fromMe
  | none => false

/-- `messageInfo.key ? messageInfo.key.remoteJid : null`. -/
def senderNumberOf (mi : MessageInfo) : Option (List Char) :=
  match mi.key with
  | some k => k.remoteJid
  | none => none

/-- Truthiness of the sender identifier (`undefined`, `null` and the empty
string are falsy). -/
def senderTruthy (mi : MessageInfo) : Bool :=
  match senderNumberOf mi with
  | some s => s ≠ []
  | none => false

/-- Truthiness of `messageInfo.messageStubType` (a stub-type number; `0`
would be falsy). -/
def stubTruthy (mi : MessageInfo) : Bool :=
  match mi.messageStubType with
  | some n => n ≠ 0
  | none => false

/-- `senderNumber.replace(/[^a-zA-Z0-9]/g, '_')`. -/
def safeSenderIdOf (sender : List Char) : List Char :=
  sender.map fun c => if c.isAlphanum then c else '_'

/-- Text extraction of the first copy (lines 346-355): truthiness of
`msgContentObj.conversation`, else truthiness of
`msgContentObj.extendedTextMessage && msgContentObj.extendedTextMessage.text`. -/
def extractText1 (m : Option MessageContent) : Option (List Char) × MsgType :=
  match m with
  | none => (none, .unknown)
  | some mc =>
    match mc.conversation with
    | some s =>
      if s ≠ [] then (some s, .text)
      else
        match mc.extendedTextMessageText with
        | some t => if t ≠ [] then (some t, .text) else (none, .unknown)
        | none => (none, .unknown)
    | none =>
      match mc.extendedTextMessageText with
      | some t => if t ≠ [] then (some t, .text) else (none, .unknown)
      | none => (none, .unknown)

/-- Text extraction of the second copy (lines 711-720): presence test
`'conversation' in msgContentObj`, else truthiness of
`msgContentObj.extendedTextMessage?.text`. -/
def extractText2 (m : Option MessageContent) : Option (List Char) × MsgType :=
  match m with
  | none => (none, .unknown)
  | some mc =>
    match mc.conversation with
    | some s => (some s, .text)
    | none =>
      match mc.extendedTextMessageText with
      | some t => if t ≠ [] then (some t, .text) else (none, .unknown)
      | none => (none, .unknown)

/-- The user turn the first copy appends:
`{ role: 'user'|'model', parts: [{ text }] }`. -/
def mkTurn1 (role : List Char) (text : List Char) : JVal :=
  .obj [("role".data, .str role), ("parts".data, .arr [.obj [("text".data, .str text)]])]

/-- The turn the second copy appends: `{ role, parts: [text] }`. -/
def mkTurn2 (role : List Char) (text : List Char) : JVal :=
  .obj [("role".data, .str role), ("parts".data, .arr [.str text])]

/-- The event name guarding both handlers. -/
def upsertEvent : List Char := "messages.upsert".data

/-- A plain inbound text message: not self-sent, sender present, direct
`conversation` text, no stub type. -/
def mkTextMessage (sender text : List Char) : MessageInfo :=
  { key := some { fromMe := false, remoteJid := some sender }
    message := some { conversation := some text, extendedTextMessageText := none }
    messageStubType := none }

/-- `POST /webhook` (first copy, lines 328-413) as a function of the parsed
event, the store, the reply-generation outcome and the send capability.
Note the order: the stub check (line 357) runs BEFORE the missing-sender
check (line 363). -/
def processWebhook1 (event : List Char) (messages : Option MessageInfo)
    (store : StoreT) (genReply : List Char → List JVal → List Char)
    (sendResult : Nat → Bool) : HandlerResult :=
  match messages with
  | some mi =>
    if event = upsertEvent then
      if keyFromMe mi then
        { status := 200, detail := some "Self-sent message ignored".data, store := store, trace := [] }
      else
        let r := extractText1 mi.message
        if stubTruthy mi then
          { status := 200, detail := some "System message processed".data, store := store, trace := [] }
        else if !senderTruthy mi then
          { status := 400, detail := some "Incomplete sender data".data, store := store, trace := [] }
        else
          let sender := (senderNumberOf mi).getD []
          let safeSenderId := safeSenderIdOf sender
          if r.2 = .text ∧ jsTruthy ((r.1).map .str) then
            let incomingMessageText := (r.1).getD []
            let conversationHistory := loadConversationHistory (store safeSenderId)
            let geminiReply := genReply incomingMessageText conversationHistory
            if geminiReply ≠ [] then
              let messageChunks := splitMessage geminiReply
              let trace := deliveryLoop sendResult messageChunks
              let newHistory := conversationHistory ++
                [mkTurn1 "user".data incomingMessageText, mkTurn1 "model".data geminiReply]
              { status := 200, detail := none,
                store := saveConversationHistory store safeSenderId newHistory, trace := trace }
            else
              { status := 200, detail := none, store := store, trace := [] }
          else
            { status := 200, detail := none, store := store, trace := [] }
    else
      { status := 200, detail := none, store := store, trace := [] }
  | none =>
    { status := 200, detail := none, store := store, trace := [] }

/-- `POST /webhook` (second copy, lines 687-766).  Here the missing-sender
check (line 701) runs BEFORE the stub check (line 722), and the appended
turns carry `parts: [text]`. -/
def processWebhook2 (event : List Char) (messages : Option MessageInfo)
    (store : StoreT) (genReply : List Char → List JVal → List Char)
    (sendResult : Nat → Bool) : HandlerResult :=
  match messages with
  | some mi =>
    if event = upsertEvent then
      if keyFromMe mi then
        { status := 200, detail := some "Self-sent message ignored".data, store := store, trace := [] }
      else if !senderTruthy mi then
        { status := 400, detail := some "Incomplete sender data".data, store := store, trace := [] }
      else
        let sender := (senderNumberOf mi).getD []
        let safeSenderId := safeSenderIdOf sender
        let r := extractText2 mi.message
        if stubTruthy mi then
          { status := 200, detail := some "System message processed".data, store := store, trace := [] }
        else if r.2 = .text ∧ jsTruthy ((r.1).map .str) then
          let incomingMessageText := (r.1).getD []
          let conversationHistory := loadConversationHistory2 (store safeSenderId)
          let geminiReply := genReply incomingMessageText conversationHistory
          if geminiReply ≠ [] then
            let messageChunks := splitMessage geminiReply
            let trace := deliveryLoop sendResult messageChunks
            let newHistory := conversationHistory ++
              [mkTurn2 "user".data incomingMessageText, mkTurn2 "model".data geminiReply]
            { status := 200, detail := none,
              store := saveConversationHistory store safeSenderId newHistory, trace := trace }
          else
            { status := 200, detail := none, store := store, trace := [] }
        else
          { status := 200, detail := none, store := store, trace := [] }
    else
      { status := 200, detail := none, store := store, trace := [] }
  | none =>
    { status := 200, detail := none, store := store, trace := [] }

/-! ## Lemmas about the string primitives -/

theorem splitOnChar_ne_nil (sep : Char) (s : List Char) : splitOnChar sep s ≠ [] := by
  induction s using splitOnChar.induct sep with
  | case1 => simp [splitOnChar]
  | case2 rest ih => simp [splitOnChar]
  | case3 c rest hc hnil ih => exact absurd hnil ih
  | case4 c rest hc hd tl heq ih => simp [splitOnChar, if_neg hc, heq]

theorem not_mem_of_mem_splitOnChar (sep : Char) (s : List Char) :
    ∀ p ∈ splitOnChar sep s, sep ∉ p := by
  induction s using splitOnChar.induct sep with
  | case1 => simp [splitOnChar]
  | case2 rest ih =>
    intro p hp
    rw [splitOnChar, if_pos rfl] at hp
    rcases List.mem_cons.mp hp with rfl | hp
    · simp
    · exact ih p hp
  | case3 c rest hc hnil ih => exact absurd hnil (splitOnChar_ne_nil sep rest)
  | case4 c rest hc hd tl heq ih =>
    intro p hp
    rw [splitOnChar, if_neg hc, heq] at hp
    rcases List.mem_cons.mp hp with rfl | hp
    · intro hmem
      rcases List.mem_cons.mp hmem with rfl | hmem
      · exact hc rfl
      · exact ih hd (heq ▸ List.mem_cons_self hd tl) hmem
    · exact ih p (heq ▸ List.mem_cons_of_mem hd hp)

theorem mem_of_mem_splitOnChar (sep : Char) (s : List Char) :
    ∀ p ∈ splitOnChar sep s, ∀ c ∈ p, c ∈ s := by
  induction s using splitOnChar.induct sep with
  | case1 => simp [splitOnChar]
  | case2 rest ih =>
    intro p hp a ha
    rw [splitOnChar, if_pos rfl] at hp
    rcases List.mem_cons.mp hp with rfl | hp
    · simp at ha
    · exact List.mem_cons_of_mem _ (ih p hp a ha)
  | case3 c rest hc hnil ih => exact absurd hnil (splitOnChar_ne_nil sep rest)
  | case4 c rest hc hd tl heq ih =>
    intro p hp a ha
    rw [splitOnChar, if_neg hc, heq] at hp
    rcases List.mem_cons.mp hp with rfl | hp
    · rcases List.mem_cons.mp ha with rfl | ha
      · exact List.mem_cons_self a rest
      · exact List.mem_cons_of_mem _ (ih hd (heq ▸ List.mem_cons_self hd tl) a ha)
    · exact List.mem_cons_of_mem _ (ih p (heq ▸ List.mem_cons_of_mem hd hp) a ha)

theorem splitOnChar_of_not_mem (sep : Char) (s : List Char) (h : sep ∉ s) :
    splitOnChar sep s = [s] := by
  induction s with
  | nil => rfl
  | cons c rest ih =>
    have hc : c ≠ sep := fun hc => h (hc ▸ List.mem_cons_self c rest)
    have hrest : sep ∉ rest := fun hm => h (List.mem_cons_of_mem c hm)
    rw [splitOnChar, if_neg hc, ih hrest]

theorem splitOnChar_append_cons (sep : Char) (l t : List Char) (h : sep ∉ l) :
    splitOnChar sep (l ++ sep :: t) = l :: splitOnChar sep t := by
  induction l with
  | nil =>
    rw [List.nil_append, splitOnChar, if_pos rfl]
  | cons c rest ih =>
    have hc : c ≠ sep := fun hc => h (hc ▸ List.mem_cons_self c rest)
    have hrest : sep ∉ rest := fun hm => h (List.mem_cons_of_mem c hm)
    rw [List.cons_append, splitOnChar, if_neg hc, ih hrest]

theorem splitOnChar_joinWith (sep : Char) (ls : List (List Char)) (hne : ls ≠ [])
    (h : ∀ l ∈ ls, sep ∉ l) : splitOnChar sep (joinWith [sep] ls) = ls := by
  induction ls with
  | nil => exact absurd rfl hne
  | cons l rest ih =>
    cases rest with
    | nil =>
      exact splitOnChar_of_not_mem sep l (h l (List.mem_singleton.mpr rfl))
    | cons l₂ rest₂ =>
      have : joinWith [sep] (l :: l₂ :: rest₂) = l ++ sep :: joinWith [sep] (l₂ :: rest₂) := by
        simp [joinWith]
      rw [this, splitOnChar_append_cons sep l _ (h l (List.mem_cons_self _ _)),
        ih (by simp) (fun x hx => h x (List.mem_cons_of_mem l hx))]

theorem joinWith_cons_cons (sep l l₂ : List Char) (rest : List (List Char)) :
    joinWith sep (l :: l₂ :: rest) = l ++ sep ++ joinWith sep (l₂ :: rest) := rfl

theorem mem_joinWith (sep : List Char) (ls : List (List Char)) :
    ∀ c ∈ joinWith sep ls, c ∈ sep ∨ ∃ l ∈ ls, c ∈ l := by
  induction ls with
  | nil => simp [joinWith]
  | cons l rest ih =>
    cases rest with
    | nil =>
      intro c hc
      exact Or.inr ⟨l, by simp, by simpa [joinWith] using hc⟩
    | cons l₂ rest₂ =>
      intro c hc
      rw [joinWith_cons_cons] at hc
      rcases List.mem_append.mp hc with hc | hc
      · rcases List.mem_append.mp hc with hc | hc
        · exact Or.inr ⟨l, List.mem_cons_self _ _, hc⟩
        · exact Or.inl hc
      · rcases ih c hc with hc | ⟨x, hx, hcx⟩
        · exact Or.inl hc
        · exact Or.inr ⟨x, List.mem_cons_of_mem l hx, hcx⟩

theorem joinWith_append_singleton (sep : List Char) (ls : List (List Char)) (x : List Char) :
    joinWith sep (ls ++ [x]) = if ls = [] then x else joinWith sep ls ++ sep ++ x := by
  induction ls with
  | nil => simp [joinWith]
  | cons l rest ih =>
    cases rest with
    | nil => simp [joinWith]
    | cons l₂ rest₂ =>
      rw [List.cons_append, List.cons_append, joinWith_cons_cons, ← List.cons_append,
        ih, joinWith_cons_cons]
      simp

theorem splitOnBackslashN_ne_nil (s : List Char) : splitOnBackslashN s ≠ [] := by
  induction s using splitOnBackslashN.induct with
  | case1 => simp [splitOnBackslashN]
  | case2 c => simp [splitOnBackslashN]
  | case3 c₁ c₂ rest hm ih => simp [splitOnBackslashN, if_pos hm]
  | case4 c₁ c₂ rest hm hnil ih => exact absurd hnil ih
  | case5 c₁ c₂ rest hm hd tl heq ih => simp [splitOnBackslashN, if_neg hm, heq]

theorem mem_of_mem_splitOnBackslashN (s : List Char) :
    ∀ p ∈ splitOnBackslashN s, ∀ c ∈ p, c ∈ s := by
  induction s using splitOnBackslashN.induct with
  | case1 => simp [splitOnBackslashN]
  | case2 c => simp [splitOnBackslashN]
  | case3 c₁ c₂ rest hm ih =>
    intro p hp a ha
    rw [splitOnBackslashN, if_pos hm] at hp
    rcases List.mem_cons.mp hp with rfl | hp
    · simp at ha
    · exact List.mem_cons_of_mem _ (List.mem_cons_of_mem _ (ih p hp a ha))
  | case4 c₁ c₂ rest hm hnil ih =>
    exact absurd hnil (splitOnBackslashN_ne_nil _)
  | case5 c₁ c₂ rest hm hd tl heq ih =>
    intro p hp a ha
    rw [splitOnBackslashN, if_neg hm, heq] at hp
    rcases List.mem_cons.mp hp with rfl | hp
    · rcases List.mem_cons.mp ha with rfl | ha
      · exact List.mem_cons_self a _
      · exact List.mem_cons_of_mem _ (ih hd (heq ▸ List.mem_cons_self hd tl) a ha)
    · exact List.mem_cons_of_mem _ (ih p (heq ▸ List.mem_cons_of_mem hd hp) a ha)

theorem splitOnBackslashN_of_not_contains (s : List Char) (h : containsBackslashN s = false) :
    splitOnBackslashN s = [s] := by
  induction s using splitOnBackslashN.induct with
  | case1 => rfl
  | case2 c => rfl
  | case3 c₁ c₂ rest hm ih =>
    exfalso
    have hh : containsBackslashN (c₁ :: c₂ :: rest) =
        ((c₁ = '\\' && c₂ = 'n') || containsBackslashN (c₂ :: rest)) := rfl
    rw [hh] at h
    simp [hm.1, hm.2] at h
  | case4 c₁ c₂ rest hm hnil ih =>
    exact absurd hnil (splitOnBackslashN_ne_nil _)
  | case5 c₁ c₂ rest hm hd tl heq ih =>
    have hh : containsBackslashN (c₁ :: c₂ :: rest) =
        ((c₁ = '\\' && c₂ = 'n') || containsBackslashN (c₂ :: rest)) := rfl
    rw [hh, Bool.or_eq_false_iff] at h
    have h2 := ih h.2
    rw [splitOnBackslashN, if_neg hm, h2]

/-! ## Bridge: `splitMessage` equals chunk-grouping of the wrapped lines -/

theorem wrapStep_eq (maxC : Nat) (d line : List (List Char)) (len : Nat) (w : List Char) :
    wrapStep maxC (d, line, len) w =
      if len + w.length + 1 ≤ maxC then (d, line ++ [w], len + w.length + 1)
      else (d ++ [joinWith [' '] line], [w], w.length) := rfl

theorem wordStep_eq (maxL maxC : Nat) (st : SplitSt) (line : List (List Char)) (len : Nat)
    (w : List Char) :
    wordStep maxL maxC (st, line, len) w =
      if len + w.length + 1 ≤ maxC then (st, line ++ [w], len + w.length + 1)
      else (pushLine maxL st (joinWith [' '] line), [w], w.length) := rfl

theorem foldl_wrapStep_shift (maxC : Nat) (ws : List (List Char)) :
    ∀ (d0 d line : List (List Char)) (len : Nat),
      ws.foldl (wrapStep maxC) (d0 ++ d, line, len) =
        ((d0 ++ (ws.foldl (wrapStep maxC) (d, line, len)).1,
          (ws.foldl (wrapStep maxC) (d, line, len)).2)) := by
  induction ws with
  | nil => intro d0 d line len; rfl
  | cons w ws ih =>
    intro d0 d line len
    simp only [List.foldl_cons, wrapStep_eq]
    by_cases h : len + w.length + 1 ≤ maxC
    · rw [if_pos h, if_pos h]
      exact ih d0 d (line ++ [w]) (len + w.length + 1)
    · rw [if_neg h, if_neg h, List.append_assoc]
      exact ih d0 (d ++ [joinWith [' '] line]) [w] w.length

theorem foldl_wrapStep_shift_nil (maxC : Nat) (ws : List (List Char))
    (d0 line : List (List Char)) (len : Nat) :
    ws.foldl (wrapStep maxC) (d0, line, len) =
      ((d0 ++ (ws.foldl (wrapStep maxC) ([], line, len)).1,
        (ws.foldl (wrapStep maxC) ([], line, len)).2)) := by
  have := foldl_wrapStep_shift maxC ws d0 [] line len
  simpa using this

theorem foldl_wordStep_eq_wrap (maxL maxC : Nat) (ws : List (List Char)) :
    ∀ (st : SplitSt) (line : List (List Char)) (len : Nat),
      ws.foldl (wordStep maxL maxC) (st, line, len) =
        (((ws.foldl (wrapStep maxC) ([], line, len)).1).foldl (pushLine maxL) st,
          (ws.foldl (wrapStep maxC) ([], line, len)).2) := by
  induction ws with
  | nil => intro st line len; rfl
  | cons w ws ih =>
    intro st line len
    simp only [List.foldl_cons, wordStep_eq, wrapStep_eq]
    by_cases h : len + w.length + 1 ≤ maxC
    · rw [if_pos h, if_pos h]
      exact ih st (line ++ [w]) (len + w.length + 1)
    · rw [if_neg h, if_neg h, List.nil_append,
        foldl_wrapStep_shift_nil maxC ws [joinWith [' '] line] [w] w.length,
        ih (pushLine maxL st (joinWith [' '] line)) [w] w.length]
      rw [List.foldl_append]
      rfl

theorem processParagraph_eq (maxL maxC : Nat) (st : SplitSt) (p : List Char) :
    processParagraph maxL maxC st p = (wrapParagraph maxC p).foldl (pushLine maxL) st := by
  by_cases h : p.length > maxC
  · rw [processParagraph, if_pos h, wrapParagraph, if_pos h]
    simp only [foldl_wordStep_eq_wrap maxL maxC _ st [] 0]
    by_cases h2 : ((splitOnChar ' ' p).foldl (wrapStep maxC) ([], [], 0)).2.1 ≠ []
    · rw [if_pos h2, if_pos h2, List.foldl_append]
      rfl
    · rw [if_neg h2, if_neg h2]
  · rw [processParagraph, if_neg h, wrapParagraph, if_neg h]
    rfl

theorem foldl_processParagraph_eq (maxL maxC : Nat) (ps : List (List Char)) :
    ∀ st : SplitSt,
      ps.foldl (processParagraph maxL maxC) st =
        (ps.flatMap (wrapParagraph maxC)).foldl (pushLine maxL) st := by
  induction ps with
  | nil => intro st; rfl
  | cons p ps ih =>
    intro st
    rw [List.foldl_cons, List.flatMap_cons, List.foldl_append, processParagraph_eq, ih]

theorem splitMessage_eq_chunkLines (text : List Char) (maxL maxC : Nat) :
    splitMessage text maxL maxC = chunkLines maxL (messageLines maxC text) := by
  rw [splitMessage, chunkLines, messageLines, foldl_processParagraph_eq]

theorem pushLine_eq (maxL : Nat) (st : SplitSt) (line : List Char) :
    pushLine maxL st line =
      if st.currentLineCount ≥ maxL then
        ⟨st.chunks ++ [joinWith ['\n'] st.currentChunk], [line], 1⟩
      else ⟨st.chunks, st.currentChunk ++ [line], st.currentLineCount + 1⟩ := rfl

theorem pushLineL_eq (maxL : Nat) (st : SplitStL) (line : List Char) :
    pushLineL maxL st line =
      if st.currentLineCount ≥ maxL then ⟨st.chunks ++ [st.currentChunk], [line], 1⟩
      else ⟨st.chunks, st.currentChunk ++ [line], st.currentLineCount + 1⟩ := rfl

theorem foldl_pushLine_eq_pushLineL (maxL : Nat) (lines : List (List Char)) :
    ∀ (chl : List (List (List Char))) (cc : List (List Char)) (n : Nat),
      lines.foldl (pushLine maxL) ⟨chl.map (joinWith ['\n']), cc, n⟩ =
        { chunks := (lines.foldl (pushLineL maxL) ⟨chl, cc, n⟩).chunks.map (joinWith ['\n'])
          currentChunk := (lines.foldl (pushLineL maxL) ⟨chl, cc, n⟩).currentChunk
          currentLineCount := (lines.foldl (pushLineL maxL) ⟨chl, cc, n⟩).currentLineCount } := by
  induction lines with
  | nil => intro chl cc n; rfl
  | cons line lines ih =>
    intro chl cc n
    simp only [List.foldl_cons, pushLine_eq, pushLineL_eq]
    by_cases h : n ≥ maxL
    · simp only [if_pos h]
      have : chl.map (joinWith ['\n']) ++ [joinWith ['\n'] cc] =
          (chl ++ [cc]).map (joinWith ['\n']) := by simp
      rw [this]
      exact ih (chl ++ [cc]) [line] 1
    · simp only [if_neg h]
      exact ih chl (cc ++ [line]) (n + 1)

theorem chunkLines_eq_map (maxL : Nat) (lines : List (List Char)) :
    chunkLines maxL lines = (chunkLinesL maxL lines).map (joinWith ['\n']) := by
  rw [chunkLines, chunkLinesL]
  have h := foldl_pushLine_eq_pushLineL maxL lines [] [] 0
  simp only [List.map_nil] at h
  rw [h]
  by_cases h2 : (lines.foldl (pushLineL maxL) ⟨[], [], 0⟩).currentChunk ≠ []
  · simp only [if_pos h2, List.map_append, List.map_cons, List.map_nil]
  · simp only [if_neg h2]

theorem splitMessage_eq_map_lines (text : List Char) (maxL maxC : Nat) :
    splitMessage text maxL maxC = (splitMessageLines text maxL maxC).map (joinWith ['\n']) := by
  rw [splitMessage_eq_chunkLines, splitMessageLines, chunkLines_eq_map]

/-! ## Structural invariants of the chunk grouping -/

theorem foldl_pushLineL_size (maxL : Nat) (hml : 1 ≤ maxL) (lines : List (List Char)) :
    ∀ (chl : List (List (List Char))) (cc : List (List Char)) (n : Nat),
      n = cc.length → cc.length ≤ maxL →
      (∀ c ∈ chl, c ≠ [] ∧ c.length ≤ maxL) →
      (lines.foldl (pushLineL maxL) ⟨chl, cc, n⟩).currentLineCount =
          (lines.foldl (pushLineL maxL) ⟨chl, cc, n⟩).currentChunk.length ∧
        (lines.foldl (pushLineL maxL) ⟨chl, cc, n⟩).currentChunk.length ≤ maxL ∧
        ∀ c ∈ (lines.foldl (pushLineL maxL) ⟨chl, cc, n⟩).chunks, c ≠ [] ∧ c.length ≤ maxL := by
  induction lines with
  | nil =>
    intro chl cc n h1 h2 h3
    exact ⟨h1, h2, h3⟩
  | cons line lines ih =>
    intro chl cc n h1 h2 h3
    simp only [List.foldl_cons, pushLineL_eq]
    by_cases h : n ≥ maxL
    · simp only [if_pos h]
      refine ih (chl ++ [cc]) [line] 1 (by simp) (by simpa using hml) ?_
      intro c hc
      rcases List.mem_append.mp hc with hc | hc
      · exact h3 c hc
      · rcases List.mem_singleton.mp hc with rfl
        constructor
        · intro hcc
          rw [hcc] at h1
          simp at h1
          omega
        · exact h2
    · simp only [if_neg h]
      refine ih chl (cc ++ [line]) (n + 1) (by simp [h1]) (by simp; omega) h3

theorem chunkLinesL_size (maxL : Nat) (hml : 1 ≤ maxL) (lines : List (List Char)) :
    ∀ c ∈ chunkLinesL maxL lines, c ≠ [] ∧ c.length ≤ maxL := by
  intro c hc
  rw [chunkLinesL] at hc
  have h := foldl_pushLineL_size maxL hml lines [] [] 0 rfl (by simp) (by simp)
  by_cases h2 : (lines.foldl (pushLineL maxL) ⟨[], [], 0⟩).currentChunk ≠ []
  · rw [if_pos h2] at hc
    rcases List.mem_append.mp hc with hc | hc
    · exact h.2.2 c hc
    · rcases List.mem_singleton.mp hc with rfl
      exact ⟨h2, h.2.1⟩
  · rw [if_neg h2] at hc
    exact h.2.2 c hc

theorem foldl_pushLineL_flatten (maxL : Nat) (lines : List (List Char)) :
    ∀ (chl : List (List (List Char))) (cc : List (List Char)) (n : Nat),
      (lines.foldl (pushLineL maxL) ⟨chl, cc, n⟩).chunks.flatten ++
          (lines.foldl (pushLineL maxL) ⟨chl, cc, n⟩).currentChunk =
        chl.flatten ++ cc ++ lines := by
  induction lines with
  | nil => intro chl cc n; simp
  | cons line lines ih =>
    intro chl cc n
    simp only [List.foldl_cons, pushLineL_eq]
    by_cases h : n ≥ maxL
    · rw [if_pos h, ih (chl ++ [cc]) [line] 1]
      simp
    · rw [if_neg h, ih chl (cc ++ [line]) (n + 1)]
      simp

theorem chunkLinesL_flatten (maxL : Nat) (lines : List (List Char)) :
    (chunkLinesL maxL lines).flatten = lines := by
  rw [chunkLinesL]
  have h := foldl_pushLineL_flatten maxL lines [] [] 0
  simp only [List.flatten_nil, List.nil_append] at h
  by_cases h2 : (lines.foldl (pushLineL maxL) ⟨[], [], 0⟩).currentChunk ≠ []
  · rw [if_pos h2, List.flatten_append]
    simpa using h
  · rw [if_neg h2]
    rw [not_not] at h2
    rw [h2, List.append_nil] at h
    exact h

theorem mem_of_mem_chunkLinesL (maxL : Nat) (lines : List (List Char)) :
    ∀ c ∈ chunkLinesL maxL lines, ∀ l ∈ c, l ∈ lines := by
  intro c hc l hl
  rw [← chunkLinesL_flatten maxL lines]
  exact List.mem_flatten.mpr ⟨c, hc, hl⟩

/-! ## Soundness of the produced lines (length bound, character provenance) -/

theorem foldl_wrapStep_sound (maxC : Nat) (p : List Char) (ws : List (List Char)) :
    (∀ w ∈ ws, w ∈ splitOnChar ' ' p) →
    ∀ (d line : List (List Char)) (len : Nat),
      (∀ x ∈ d, (x.length ≤ maxC ∨ ' ' ∉ x) ∧ ∀ c ∈ x, c = ' ' ∨ c ∈ p) →
      (joinWith [' '] line).length ≤ len →
      (len ≤ maxC ∨ ∃ w, line = [w]) →
      (∀ w ∈ line, w ∈ splitOnChar ' ' p) →
      (∀ x ∈ (ws.foldl (wrapStep maxC) (d, line, len)).1,
          (x.length ≤ maxC ∨ ' ' ∉ x) ∧ ∀ c ∈ x, c = ' ' ∨ c ∈ p) ∧
        (joinWith [' '] (ws.foldl (wrapStep maxC) (d, line, len)).2.1).length ≤
          (ws.foldl (wrapStep maxC) (d, line, len)).2.2 ∧
        ((ws.foldl (wrapStep maxC) (d, line, len)).2.2 ≤ maxC ∨
          ∃ w, (ws.foldl (wrapStep maxC) (d, line, len)).2.1 = [w]) ∧
        ∀ w ∈ (ws.foldl (wrapStep maxC) (d, line, len)).2.1, w ∈ splitOnChar ' ' p := by
  induction ws with
  | nil =>
    intro hws d line len h1 h2 h3 h4
    exact ⟨h1, h2, h3, h4⟩
  | cons w ws ih =>
    intro hws d line len h1 h2 h3 h4
    have hw : w ∈ splitOnChar ' ' p := hws w (List.mem_cons_self _ _)
    have hws' : ∀ v ∈ ws, v ∈ splitOnChar ' ' p := fun v hv => hws v (List.mem_cons_of_mem w hv)
    simp only [List.foldl_cons, wrapStep_eq]
    by_cases h : len + w.length + 1 ≤ maxC
    · rw [if_pos h]
      refine (ih hws' d (line ++ [w]) (len + w.length + 1) h1 ?_ (Or.inl h) ?_)
      · rw [joinWith_append_singleton]
        by_cases hline : line = []
        · rw [if_pos hline]
          omega
        · rw [if_neg hline]
          simp only [List.length_append, List.length_append]
          have : (joinWith [' '] line).length ≤ len := h2
          simp only [List.length_singleton]
          omega
      · intro v hv
        rcases List.mem_append.mp hv with hv | hv
        · exact h4 v hv
        · rcases List.mem_singleton.mp hv with rfl
          exact hw
    · rw [if_neg h]
      refine (ih hws' (d ++ [joinWith [' '] line]) [w] w.length ?_ ?_ (Or.inr ⟨w, rfl⟩) ?_)
      · intro x hx
        rcases List.mem_append.mp hx with hx | hx
        · exact h1 x hx
        · rcases List.mem_singleton.mp hx with rfl
          constructor
          · rcases h3 with h3 | ⟨v, rfl⟩
            · exact Or.inl (le_trans h2 h3)
            · exact Or.inr (not_mem_of_mem_splitOnChar ' ' p v (h4 v (List.mem_singleton.mpr rfl)))
          · intro c hc
            rcases mem_joinWith [' '] line c hc with hc | ⟨l, hl, hcl⟩
            · exact Or.inl (List.mem_singleton.mp hc)
            · exact Or.inr (mem_of_mem_splitOnChar ' ' p l (h4 l hl) c hcl)
      · simp [joinWith]
      · intro v hv
        rcases List.mem_singleton.mp hv with rfl
        exact hw

theorem wrapParagraph_sound (maxC : Nat) (p : List Char) :
    ∀ x ∈ wrapParagraph maxC p, (x.length ≤ maxC ∨ ' ' ∉ x) ∧ ∀ c ∈ x, c = ' ' ∨ c ∈ p := by
  intro x hx
  rw [wrapParagraph] at hx
  by_cases h : p.length > maxC
  · rw [if_pos h] at hx
    have hsound := foldl_wrapStep_sound maxC p (splitOnChar ' ' p) (fun w hw => hw)
      [] [] 0 (by simp) (by simp [joinWith]) (Or.inl (Nat.zero_le _)) (by simp)
    by_cases h2 : ((splitOnChar ' ' p).foldl (wrapStep maxC) ([], [], 0)).2.1 ≠ []
    · rw [if_pos h2] at hx
      rcases List.mem_append.mp hx with hx | hx
      · exact hsound.1 x hx
      · rcases List.mem_singleton.mp hx with rfl
        constructor
        · rcases hsound.2.2.1 with hle | ⟨w, hw⟩
          · exact Or.inl (le_trans hsound.2.1 hle)
          · rw [hw]
            exact Or.inr (not_mem_of_mem_splitOnChar ' ' p w
              (hsound.2.2.2 w (hw ▸ List.mem_singleton.mpr rfl)))
        · intro c hc
          rcases mem_joinWith [' '] _ c hc with hc | ⟨l, hl, hcl⟩
          · exact Or.inl (List.mem_singleton.mp hc)
          · exact Or.inr (mem_of_mem_splitOnChar ' ' p l (hsound.2.2.2 l hl) c hcl)
    · rw [if_neg h2] at hx
      exact hsound.1 x hx
  · rw [if_neg h] at hx
    rcases List.mem_singleton.mp hx with rfl
    exact ⟨Or.inl (by omega), fun c hc => Or.inr hc⟩

theorem messageLines_sound (maxC : Nat) (text : List Char) :
    ∀ x ∈ messageLines maxC text, (x.length ≤ maxC ∨ ' ' ∉ x) ∧ ∀ c ∈ x, c = ' ' ∨ c ∈ text := by
  intro x hx
  rw [messageLines] at hx
  rcases List.mem_flatMap.mp hx with ⟨p, hp, hxp⟩
  have h := wrapParagraph_sound maxC p x hxp
  refine ⟨h.1, fun c hc => ?_⟩
  rcases h.2 c hc with hc' | hc'
  · exact Or.inl hc'
  · exact Or.inr (mem_of_mem_splitOnBackslashN text p hp c hc')

theorem messageLines_no_newline (maxC : Nat) (text : List Char) (hnl : '\n' ∉ text) :
    ∀ x ∈ messageLines maxC text, '\n' ∉ x := by
  intro x hx hmem
  rcases (messageLines_sound maxC text x hx).2 '\n' hmem with h | h
  · exact absurd h (by decide)
  · exact hnl h

theorem chunk_lines_recover (text : List Char) (maxL maxC : Nat) (hml : 1 ≤ maxL)
    (hnl : '\n' ∉ text) :
    ∀ cl ∈ splitMessageLines text maxL maxC, splitOnChar '\n' (joinWith ['\n'] cl) = cl := by
  intro cl hcl
  rw [splitMessageLines] at hcl
  exact splitOnChar_joinWith '\n' cl (chunkLinesL_size maxL hml _ cl hcl).1
    (fun l hl => messageLines_no_newline maxC text hnl l
      (mem_of_mem_chunkLinesL maxL _ cl hcl l hl))

/-! ## Claim C1 -/

/-- C1 (corrected): for every `maxLines ≥ 1` and every input that contains no
real newline character, every chunk of `splitMessage text maxLines
maxCharsPerLine` has at most `maxLines` lines (counted by splitting the chunk
on the newline character), and every produced line either has length at most
`maxCharsPerLine` or contains no space (i.e. is a single unsplittable word).
The original claim, quantified over all inputs, fails: a real newline inside
the input is carried inside one produced line, so newline-splitting a chunk
can count more than `maxLines` lines (see the counterexample). -/
theorem splitMessage_chunk_bounds (text : List Char) (maxLines maxCharsPerLine : Nat)
    (hml : 1 ≤ maxLines) (hnl : '\n' ∉ text) :
    ∀ chunk ∈ splitMessage text maxLines maxCharsPerLine,
      (splitOnChar '\n' chunk).length ≤ maxLines ∧
      ∀ line ∈ splitOnChar '\n' chunk, line.length ≤ maxCharsPerLine ∨ ' ' ∉ line := by
  intro chunk hchunk
  rw [splitMessage_eq_map_lines] at hchunk
  rcases List.mem_map.mp hchunk with ⟨cl, hcl, rfl⟩
  rw [chunk_lines_recover text maxLines maxCharsPerLine hml hnl cl hcl]
  rw [splitMessageLines] at hcl
  constructor
  · exact (chunkLinesL_size maxLines hml _ cl hcl).2
  · intro line hline
    exact (messageLines_sound maxCharsPerLine text line
      (mem_of_mem_chunkLinesL maxLines _ cl hcl line hline)).1

/-- C1 counterexample: at the default parameters (`maxLines = 3`), the input
`"a\nb\nc\nd"` (real newlines, no backslash-n marker) yields a single chunk
which, split on the newline character, has 4 > 3 lines. -/
theorem splitMessage_chunk_bounds_cex :
    ∃ chunk ∈ splitMessage "a\nb\nc\nd".data 3 100,
      ¬ (splitOnChar '\n' chunk).length ≤ 3 := by decide

/-- C1 witness: a concrete instance of `splitMessage_chunk_bounds`. -/
theorem splitMessage_chunk_bounds_witness :
    (splitOnChar '\n' ((splitMessage "hi there".data 3 100).headD [])).length ≤ 3 :=
  (splitMessage_chunk_bounds "hi there".data 3 100 (by decide) (by decide)
    ((splitMessage "hi there".data 3 100).headD []) (by decide)).1

/-! ## Claim C2 -/

/-- C2 (corrected): for `maxLines ≥ 1` and inputs without a real newline
character, re-splitting the chunks of `splitMessage` on the newline character
and concatenating reconstructs exactly, in order, the line sequence
`messageLines` that the greedy wrapping phase (spec §4.2) produces — no line
lost, duplicated or reordered.  The original claim, over all inputs, fails
because a produced line may itself contain a real newline character, which
re-splitting cuts apart (see the counterexample). -/
theorem splitMessage_reconstructs_lines (text : List Char) (maxLines maxCharsPerLine : Nat)
    (hml : 1 ≤ maxLines) (hnl : '\n' ∉ text) :
    ((splitMessage text maxLines maxCharsPerLine).map (splitOnChar '\n')).flatten =
      messageLines maxCharsPerLine text := by
  rw [splitMessage_eq_map_lines, List.map_map]
  have h1 : (splitMessageLines text maxLines maxCharsPerLine).map
      (splitOnChar '\n' ∘ joinWith ['\n']) =
      (splitMessageLines text maxLines maxCharsPerLine).map id :=
    List.map_congr_left
      (fun cl hcl => chunk_lines_recover text maxLines maxCharsPerLine hml hnl cl hcl)
  rw [h1, List.map_id, splitMessageLines, chunkLinesL_flatten]

/-- C2 counterexample: for the input `"a\nb"` (one real newline, no marker)
the wrapping phase produces the single line `"a\nb"`, but re-splitting the
chunks on the newline character yields the two lines `"a"`, `"b"`. -/
theorem splitMessage_reconstructs_lines_cex :
    ¬ ((splitMessage "a\nb".data 3 100).map (splitOnChar '\n')).flatten =
        messageLines 100 "a\nb".data := by decide

/-- C2 witness: a concrete instance of `splitMessage_reconstructs_lines`. -/
theorem splitMessage_reconstructs_lines_witness :
    ((splitMessage "x y".data 3 100).map (splitOnChar '\n')).flatten =
      messageLines 100 "x y".data :=
  splitMessage_reconstructs_lines "x y".data 3 100 (by decide) (by decide)

/-! ## Claim C3 -/

/-- C3 (corrected): `splitMessage` is a total Lean function (hence
deterministic and exception-free), and a short input (length at most
`maxCharsPerLine`) containing no backslash-n marker yields exactly one chunk
equal to the input.  However `splitMessage ""` is NOT the empty sequence: the
empty string is one (empty) paragraph, which becomes one empty line and hence
one chunk consisting of the empty string (see the counterexample). -/
theorem splitMessage_empty_and_short :
    splitMessage [] 3 100 = [[]] ∧
    ∀ (text : List Char) (maxLines maxCharsPerLine : Nat), 1 ≤ maxLines →
      containsBackslashN text = false → text.length ≤ maxCharsPerLine →
      splitMessage text maxLines maxCharsPerLine = [text] := by
  constructor
  · decide
  · intro text maxLines maxCharsPerLine hml hnc hlen
    rw [splitMessage, splitOnBackslashN_of_not_contains text hnc]
    simp only [List.foldl_cons, List.foldl_nil]
    rw [processParagraph, if_neg (by omega : ¬ text.length > maxCharsPerLine), pushLine_eq]
    rw [if_neg (by simp; omega : ¬ SplitSt.currentLineCount ⟨[], [], 0⟩ ≥ maxLines)]
    simp [joinWith]

/-- C3 counterexample: `splitMessage ""` returns one chunk (the empty
string), not the empty sequence the claim requires. -/
theorem splitMessage_empty_cex : splitMessage [] 3 100 ≠ [] := by decide

/-- C3 witness: `splitMessage "short"` is one chunk equal to the input. -/
theorem splitMessage_empty_and_short_witness :
    splitMessage "short".data 3 100 = ["short".data] :=
  splitMessage_empty_and_short.2 "short".data 3 100 (by decide) (by decide) (by decide)

/-! ## Claim C10 -/

/-- C10 (confirmed): `splitMessage` splits its input on the literal
two-character sequence backslash-n, not on the real newline character: an
input containing real newlines but no backslash-n marker stays a single
paragraph, and (when it fits in one line) its newlines are carried inside the
single emitted line of the single chunk. -/
theorem splitMessage_literal_marker (text : List Char) (hn : '\n' ∈ text)
    (hnc : containsBackslashN text = false) :
    splitOnBackslashN text = [text] ∧
    ∀ maxLines maxCharsPerLine : Nat, 1 ≤ maxLines → text.length ≤ maxCharsPerLine →
      splitMessageLines text maxLines maxCharsPerLine = [[text]] := by
  refine ⟨splitOnBackslashN_of_not_contains text hnc, ?_⟩
  intro maxLines maxCharsPerLine hml hlen
  rw [splitMessageLines, messageLines, splitOnBackslashN_of_not_contains text hnc]
  have hwrap : wrapParagraph maxCharsPerLine text = [text] := by
    rw [wrapParagraph, if_neg (by omega : ¬ text.length > maxCharsPerLine)]
  simp only [List.flatMap_cons, List.flatMap_nil, hwrap, List.append_nil]
  rw [chunkLinesL]
  simp only [List.foldl_cons, List.foldl_nil]
  rw [pushLineL_eq, if_neg (by simp; omega : ¬ SplitStL.currentLineCount ⟨[], [], 0⟩ ≥ maxLines)]
  simp

/-- C10 witness: the input `"a\nb"` (real newline, no marker) is one
paragraph and one single-line chunk carrying the newline. -/
theorem splitMessage_literal_marker_witness :
    splitOnBackslashN "a\nb".data = ["a\nb".data] ∧
      splitMessageLines "a\nb".data 3 100 = [["a\nb".data]] :=
  ⟨(splitMessage_literal_marker "a\nb".data (by decide) (by decide)).1,
    (splitMessage_literal_marker "a\nb".data (by decide) (by decide)).2 3 100
      (by decide) (by decide)⟩

/-! ## Delivery-loop lemmas and claim C6 -/

theorem deliveryLoopAux_cons (sendResult : Nat → Bool) (i : Nat) (c : α) (rest : List α) :
    deliveryLoopAux sendResult i (c :: rest) =
      .send c (sendResult i) ::
        (if sendResult i then
          match rest with
          | [] => []
          | _ :: _ => .delay :: deliveryLoopAux sendResult (i + 1) rest
        else []) := rfl

theorem deliveryLoopAux_ne_nil (sendResult : Nat → Bool) (i : Nat) (c : α) (rest : List α) :
    deliveryLoopAux sendResult i (c :: rest) ≠ [] := by
  rw [deliveryLoopAux_cons]
  simp

theorem deliveryLoopAux_last_not_delay (sendResult : Nat → Bool) :
    ∀ (chunks : List α) (i : Nat),
      (deliveryLoopAux sendResult i chunks).getLast? ≠ some .delay := by
  intro chunks
  induction chunks with
  | nil => intro i; simp [deliveryLoopAux]
  | cons c rest ih =>
    intro i
    rw [deliveryLoopAux_cons]
    by_cases h : sendResult i
    · simp only [h, if_pos]
      cases rest with
      | nil => simp
      | cons r rs =>
        have h1 : (DeliveryEvent.send c (sendResult i) :: DeliveryEvent.delay ::
            deliveryLoopAux sendResult (i + 1) (r :: rs)).getLast? =
            (DeliveryEvent.delay :: deliveryLoopAux sendResult (i + 1) (r :: rs)).getLast? :=
          List.getLast?_cons_cons ..
        have h2 : (DeliveryEvent.delay :: deliveryLoopAux sendResult (i + 1) (r :: rs)).getLast? =
            (deliveryLoopAux sendResult (i + 1) (r :: rs)).getLast? := by
          cases heq : deliveryLoopAux sendResult (i + 1) (r :: rs) with
          | nil => exact absurd heq (deliveryLoopAux_ne_nil sendResult (i + 1) r rs)
          | cons e es => exact heq ▸ List.getLast?_cons_cons ..
        simp only [if_pos, h1, h2]
        exact ih (i + 1)
    · simp only [h]
      simp

theorem attemptedChunks_send (c : α) (b : Bool) (t : List (DeliveryEvent α)) :
    attemptedChunks (.send c b :: t) = c :: attemptedChunks t := rfl

theorem attemptedChunks_delay (t : List (DeliveryEvent α)) :
    attemptedChunks (.delay :: t) = attemptedChunks t := rfl

theorem deliveryLoopAux_first_failure (sendResult : Nat → Bool) :
    ∀ (chunks : List α) (i k : Nat), k < chunks.length →
      sendResult (i + k) = false → (∀ j, j < k → sendResult (i + j) = true) →
      attemptedChunks (deliveryLoopAux sendResult i chunks) = chunks.take (k + 1) ∧
      deliveredChunks (deliveryLoopAux sendResult i chunks) = chunks.take k := by
  intro chunks
  induction chunks with
  | nil =>
    intro i k hk
    simp at hk
  | cons c rest ih =>
    intro i k hk hfail hok
    rw [deliveryLoopAux_cons]
    cases k with
    | zero =>
      have h0 : sendResult i = false := by simpa using hfail
      rw [h0]
      simp [attemptedChunks, deliveredChunks]
    | succ k' =>
      have h0 : sendResult i = true := by simpa using hok 0 (Nat.succ_pos k')
      rw [h0]
      have hk' : k' < rest.length := by simpa using hk
      cases rest with
      | nil => simp at hk'
      | cons r rs =>
        have hfail' : sendResult (i + 1 + k') = false := by
          have : i + 1 + k' = i + (k' + 1) := by omega
          rw [this]
          exact hfail
        have hok' : ∀ j, j < k' → sendResult (i + 1 + j) = true := by
          intro j hj
          have : i + 1 + j = i + (j + 1) := by omega
          rw [this]
          exact hok (j + 1) (by omega)
        have hrec := ih (i + 1) k' hk' hfail' hok'
        simp only [if_pos]
        constructor
        · rw [show attemptedChunks (DeliveryEvent.send c true :: DeliveryEvent.delay ::
              deliveryLoopAux sendResult (i + 1) (r :: rs)) =
              c :: attemptedChunks (deliveryLoopAux sendResult (i + 1) (r :: rs)) from rfl,
            hrec.1]
          rfl
        · rw [show deliveredChunks (DeliveryEvent.send c true :: DeliveryEvent.delay ::
              deliveryLoopAux sendResult (i + 1) (r :: rs)) =
              c :: deliveredChunks (deliveryLoopAux sendResult (i + 1) (r :: rs)) from rfl,
            hrec.2]
          rfl

/-- C6 (confirmed): the delivery loop attempts chunks strictly in their
order; when the send capability first fails at index `k` (zero-based), the
loop attempts exactly the first `k + 1` chunks (so later chunks are never
attempted), delivers exactly the first `k`, raises nothing (the model is a
total function), and no inter-chunk delay ever follows the final event of
the trace. -/
theorem deliveryLoop_stops_on_failure (sendResult : Nat → Bool) (chunks : List (List Char)) :
    (deliveryLoop sendResult chunks).getLast? ≠ some .delay ∧
    ∀ k, k < chunks.length → sendResult k = false → (∀ j, j < k → sendResult j = true) →
      attemptedChunks (deliveryLoop sendResult chunks) = chunks.take (k + 1) ∧
      deliveredChunks (deliveryLoop sendResult chunks) = chunks.take k := by
  refine ⟨deliveryLoopAux_last_not_delay sendResult chunks 0, ?_⟩
  intro k hk hfail hok
  exact deliveryLoopAux_first_failure sendResult chunks 0 k hk (by simpa using hfail)
    (fun j hj => by simpa using hok j hj)

/-- C6 witness: chunks `[c1, c2, c3]` with the 2nd send failing — exactly
`c1, c2` are attempted and only `c1` is delivered; `c3` is never attempted. -/
theorem deliveryLoop_stops_on_failure_witness :
    attemptedChunks (deliveryLoop (fun i => i == 0) ["c1".data, "c2".data, "c3".data]) =
        (["c1".data, "c2".data, "c3".data]).take 2 ∧
      deliveredChunks (deliveryLoop (fun i => i == 0) ["c1".data, "c2".data, "c3".data]) =
        (["c1".data, "c2".data, "c3".data]).take 1 :=
  (deliveryLoop_stops_on_failure (fun i => i == 0) ["c1".data, "c2".data, "c3".data]).2 1
    (by decide) (by decide)
    (fun j hj => by
      have hj0 : j = 0 := by omega
      subst hj0
      rfl)

/-! ## Conversation-store lemmas and claims C8, C9 -/

/-- C8 (confirmed): loading a nonexistent record yields the empty
conversation; loading a record whose contents fail JSON parsing yields the
empty conversation; and loading a parsed document that is not an array of
objects each carrying `role` and `parts` keys also yields the empty
conversation.  The model is a total function, so no error reaches the
caller. -/
theorem loadConversationHistory_robust :
    loadConversationHistory none = [] ∧
    loadConversationHistory (some none) = [] ∧
    ∀ v : JVal, validHistory1 v = false → loadConversationHistory (some (some v)) = [] := by
  refine ⟨rfl, rfl, ?_⟩
  intro v hv
  cases v with
  | arr items =>
    rw [validHistory1] at hv
    simp [loadConversationHistory, hv]
  | null => rfl
  | bool b => rfl
  | num n => rfl
  | str s => rfl
  | obj fields => rfl

/-- C8 witness: a number document is corrupted and loads as empty. -/
theorem loadConversationHistory_robust_witness :
    loadConversationHistory (some (some (.num 5))) = [] :=
  loadConversationHistory_robust.2.2 (.num 5) rfl

/-- C9 (confirmed): appending the user turn and the model turn to a
conversation history (a sequence of items passing the load-time validity
check) and saving it under key `k`, then loading `k`, returns exactly the
saved sequence in the same order — the appended turns pass the validity check
and round-trip unchanged. -/
theorem conversation_round_trip (store : StoreT) (k : List Char) (history : List JVal)
    (userText modelText : List Char)
    (hvalid : ∀ v ∈ history, validItem1 v = true) :
    loadConversationHistory
        (saveConversationHistory store k
          (history ++ [mkTurn1 "user".data userText, mkTurn1 "model".data modelText]) k) =
      history ++ [mkTurn1 "user".data userText, mkTurn1 "model".data modelText] := by
  rw [saveConversationHistory, if_pos rfl]
  have hall : (history ++ [mkTurn1 "user".data userText, mkTurn1 "model".data modelText]).all
      validItem1 = true := by
    rw [List.all_append, Bool.and_eq_true]
    exact ⟨List.all_eq_true.mpr hvalid, rfl⟩
  simp [loadConversationHistory, hall]

/-- C9 witness: round trip from the empty history at a concrete key. -/
theorem conversation_round_trip_witness :
    loadConversationHistory
        (saveConversationHistory (fun _ => none) "123".data
          ([] ++ [mkTurn1 "user".data "hi".data, mkTurn1 "model".data "ok".data]) "123".data) =
      [] ++ [mkTurn1 "user".data "hi".data, mkTurn1 "model".data "ok".data] :=
  conversation_round_trip (fun _ => none) "123".data [] "hi".data "ok".data
    (fun v hv => absurd hv (List.not_mem_nil v))

/-! ## Claim C7 -/

/-- C7 (confirmed, both copies): the reply generator always returns a string
and never propagates an error.  With the API key unconfigured it returns the
fixed apology immediately; when the completion call rejects it returns the
fixed try-again-later fallback; when the response handling itself throws it
returns a fixed fallback; when no tolerated shape yields text it returns a
fixed fallback; and when a shape yields a raw text it returns that text
trimmed of leading and trailing whitespace. -/
theorem getGeminiResponse_never_fails
    (complete : List Char → List JVal → Except Unit JVal)
    (messageText : List Char) (history : List JVal) :
    (getGeminiResponse1 false complete messageText history = apologyText ∧
      getGeminiResponse2 false complete messageText history = apologyText) ∧
    (∀ e : Unit, complete messageText history = .error e →
      getGeminiResponse1 true complete messageText history = tryAgainLaterText ∧
      getGeminiResponse2 true complete messageText history = tryAgainLaterText) ∧
    (∀ r : JVal, complete messageText history = .ok r →
      (extractGemini1 r = .error () →
        getGeminiResponse1 true complete messageText history = tryAgainLaterText) ∧
      (extractGemini1 r = .ok none →
        getGeminiResponse1 true complete messageText history = unexpectedFormatText) ∧
      (∀ raw, extractGemini1 r = .ok (some raw) →
        getGeminiResponse1 true complete messageText history = jsTrim raw) ∧
      (extractGemini2 r = .error () →
        getGeminiResponse2 true complete messageText history = tryAgainLaterText) ∧
      (extractGemini2 r = .ok .unusual →
        getGeminiResponse2 true complete messageText history = unusualStructureText) ∧
      (extractGemini2 r = .ok .empty →
        getGeminiResponse2 true complete messageText history = emptyResponseText) ∧
      (∀ raw, extractGemini2 r = .ok (.text raw) →
        getGeminiResponse2 true complete messageText history = jsTrim raw)) := by
  refine ⟨⟨rfl, rfl⟩, ?_, ?_⟩
  · intro e hcall
    constructor
    · simp only [getGeminiResponse1, hcall]
      rfl
    · simp only [getGeminiResponse2, hcall]
      rfl
  · intro r hcall
    have hb1 : (do extractGemini1 (← complete messageText history) :
        Except Unit (Option (List Char))) = extractGemini1 r := by
      rw [hcall]
      rfl
    have hb2 : (do extractGemini2 (← complete messageText history) :
        Except Unit GemOutcome2) = extractGemini2 r := by
      rw [hcall]
      rfl
    refine ⟨?_, ?_, ?_, ?_, ?_, ?_, ?_⟩
    · intro hex
      simp only [getGeminiResponse1, hb1, hex]
      rfl
    · intro hex
      simp only [getGeminiResponse1, hb1, hex]
      rfl
    · intro raw hex
      simp only [getGeminiResponse1, hb1, hex]
      rfl
    · intro hex
      simp only [getGeminiResponse2, hb2, hex]
      rfl
    · intro hex
      simp only [getGeminiResponse2, hb2, hex]
      rfl
    · intro hex
      simp only [getGeminiResponse2, hb2, hex]
      rfl
    · intro raw hex
      simp only [getGeminiResponse2, hb2, hex]
      rfl

/-- C7 witness: concrete instances — an unconfigured key returns the apology,
and a response carrying `{ text: "  hi  " }` returns the trimmed text. -/
theorem getGeminiResponse_never_fails_witness :
    getGeminiResponse1 false (fun _ _ => .error ()) "q".data [] = apologyText ∧
    getGeminiResponse1 true (fun _ _ => .ok (.obj [("text".data, .str "  hi  ".data)]))
        "q".data [] = jsTrim "  hi  ".data :=
  ⟨(getGeminiResponse_never_fails (fun _ _ => .error ()) "q".data []).1.1,
    ((getGeminiResponse_never_fails (fun _ _ => .ok (.obj [("text".data, .str "  hi  ".data)]))
        "q".data []).2.2 (.obj [("text".data, .str "  hi  ".data)]) rfl).2.2.1
      "  hi  ".data rfl⟩

/-! ## Webhook status classification (claim C4) -/

theorem processWebhook1_status (ev : List Char) (msgs : Option MessageInfo) (store : StoreT)
    (gen : List Char → List JVal → List Char) (send : Nat → Bool) :
    (processWebhook1 ev msgs store gen send).status = 200 ∨
    (processWebhook1 ev msgs store gen send =
        { status := 400, detail := some "Incomplete sender data".data, store := store,
          trace := [] } ∧
      ∃ mi, msgs = some mi ∧ ev = upsertEvent ∧ keyFromMe mi = false ∧
        stubTruthy mi = false ∧ senderTruthy mi = false) := by
  cases msgs with
  | none => exact Or.inl rfl
  | some mi =>
    by_cases hup : ev = upsertEvent
    · by_cases hfm : keyFromMe mi
      · exact Or.inl (by simp [processWebhook1, hup, hfm])
      · by_cases hst : stubTruthy mi
        · exact Or.inl (by simp [processWebhook1, hup, hfm, hst])
        · by_cases hsn : senderTruthy mi
          · refine Or.inl ?_
            simp only [processWebhook1, hup, if_pos, hfm, Bool.not_eq_true] at *
            simp only [if_true, hst, hsn, Bool.not_true, Bool.false_eq_true, if_false,
              Bool.not_eq_true]
            split
            · split
              · rfl
              · rfl
            · rfl
          · refine Or.inr ⟨?_, mi, rfl, hup, ?_, ?_, ?_⟩
            · simp [processWebhook1, hup, hfm, hst, hsn]
            · simpa using hfm
            · simpa using hst
            · simpa using hsn
    · exact Or.inl (by simp [processWebhook1, hup])

theorem processWebhook2_status (ev : List Char) (msgs : Option MessageInfo) (store : StoreT)
    (gen : List Char → List JVal → List Char) (send : Nat → Bool) :
    (processWebhook2 ev msgs store gen send).status = 200 ∨
    (processWebhook2 ev msgs store gen send =
        { status := 400, detail := some "Incomplete sender data".data, store := store,
          trace := [] } ∧
      ∃ mi, msgs = some mi ∧ ev = upsertEvent ∧ keyFromMe mi = false ∧
        senderTruthy mi = false) := by
  cases msgs with
  | none => exact Or.inl rfl
  | some mi =>
    by_cases hup : ev = upsertEvent
    · by_cases hfm : keyFromMe mi
      · exact Or.inl (by simp [processWebhook2, hup, hfm])
      · by_cases hsn : senderTruthy mi
        · refine Or.inl ?_
          by_cases hst : stubTruthy mi
          · simp [processWebhook2, hup, hfm, hsn, hst]
          · simp only [processWebhook2, hup, if_pos, hfm, Bool.not_eq_true] at *
            simp only [if_true, hst, hsn, Bool.not_true, Bool.false_eq_true, if_false,
              Bool.not_eq_true]
            split
            · split
              · rfl
              · rfl
            · rfl
        · refine Or.inr ⟨?_, mi, rfl, hup, ?_, ?_⟩
          · simp [processWebhook2, hup, hfm, hsn]
          · simpa using hfm
          · simpa using hsn
    · exact Or.inl (by simp [processWebhook2, hup])

/-- C4 (corrected): in the SECOND webhook copy the absent-sender check runs
first: an event that is a non-self message with a falsy sender yields the
client error 400 "Incomplete sender data" regardless of any stub type, a stub
message with a sender present is acknowledged with 200 and does nothing, and
the absent sender is the only event shape with a non-success status.  In the
FIRST copy, however, the stub check runs BEFORE the absent-sender check: a
stub event with a missing sender is acknowledged with success (see the
counterexample), and the 400 client error occurs exactly for non-stub,
non-self messages with a falsy sender — there it is again the only
non-success shape, and the stub branch acknowledges with success and does
nothing. -/
theorem webhook_sender_and_stub_priority (ev : List Char) (msgs : Option MessageInfo)
    (store : StoreT) (gen : List Char → List JVal → List Char) (send : Nat → Bool) :
    (∀ mi, msgs = some mi → ev = upsertEvent → keyFromMe mi = false → stubTruthy mi = true →
      processWebhook1 ev msgs store gen send =
        { status := 200, detail := some "System message processed".data, store := store,
          trace := [] }) ∧
    (∀ mi, msgs = some mi → ev = upsertEvent → keyFromMe mi = false → stubTruthy mi = false →
      senderTruthy mi = false →
      processWebhook1 ev msgs store gen send =
        { status := 400, detail := some "Incomplete sender data".data, store := store,
          trace := [] }) ∧
    ((processWebhook1 ev msgs store gen send).status ≠ 200 →
      processWebhook1 ev msgs store gen send =
          { status := 400, detail := some "Incomplete sender data".data, store := store,
            trace := [] } ∧
        ∃ mi, msgs = some mi ∧ ev = upsertEvent ∧ keyFromMe mi = false ∧
          stubTruthy mi = false ∧ senderTruthy mi = false) ∧
    (∀ mi, msgs = some mi → ev = upsertEvent → keyFromMe mi = false → senderTruthy mi = false →
      processWebhook2 ev msgs store gen send =
        { status := 400, detail := some "Incomplete sender data".data, store := store,
          trace := [] }) ∧
    (∀ mi, msgs = some mi → ev = upsertEvent → keyFromMe mi = false → senderTruthy mi = true →
      stubTruthy mi = true →
      processWebhook2 ev msgs store gen send =
        { status := 200, detail := some "System message processed".data, store := store,
          trace := [] }) ∧
    ((processWebhook2 ev msgs store gen send).status ≠ 200 →
      processWebhook2 ev msgs store gen send =
          { status := 400, detail := some "Incomplete sender data".data, store := store,
            trace := [] } ∧
        ∃ mi, msgs = some mi ∧ ev = upsertEvent ∧ keyFromMe mi = false ∧
          senderTruthy mi = false) := by
  refine ⟨?_, ?_, ?_, ?_, ?_, ?_⟩
  · rintro mi rfl hup hfm hst
    simp [processWebhook1, hup, hfm, hst]
  · rintro mi rfl hup hfm hst hsn
    simp [processWebhook1, hup, hfm, hst, hsn]
  · intro hne
    rcases processWebhook1_status ev msgs store gen send with h | h
    · exact absurd h hne
    · exact h
  · rintro mi rfl hup hfm hsn
    simp [processWebhook2, hup, hfm, hsn]
  · rintro mi rfl hup hfm hsn hst
    simp [processWebhook2, hup, hfm, hsn, hst]
  · intro hne
    rcases processWebhook2_status ev msgs store gen send with h | h
    · exact absurd h hne
    · exact h

/-- C4 counterexample: in the first webhook copy, an event with a stub type
AND a missing sender is acknowledged with success 200 "System message
processed" — the stub check preempts the absent-sender client error the claim
requires. -/
theorem webhook_sender_and_stub_priority_cex :
    (processWebhook1 upsertEvent
        (some { key := some { fromMe := false, remoteJid := none }, message := none,
                messageStubType := some 1 })
        (fun _ => none) (fun _ _ => []) (fun _ => true)).status = 200 ∧
    (processWebhook1 upsertEvent
        (some { key := some { fromMe := false, remoteJid := none }, message := none,
                messageStubType := some 1 })
        (fun _ => none) (fun _ _ => []) (fun _ => true)).detail =
      some "System message processed".data := ⟨rfl, rfl⟩

/-- C4 witness: concrete instances of the amended classification — a stub
with missing sender is acknowledged in copy 1, and a missing sender yields
400 in copy 2 even with a stub type present. -/
theorem webhook_sender_and_stub_priority_witness :
    processWebhook1 upsertEvent
        (some { key := some { fromMe := false, remoteJid := none }, message := none,
                messageStubType := some 1 })
        (fun _ => none) (fun _ _ => []) (fun _ => true) =
      { status := 200, detail := some "System message processed".data,
        store := fun _ => none, trace := [] } ∧
    processWebhook2 upsertEvent
        (some { key := some { fromMe := false, remoteJid := none }, message := none,
                messageStubType := some 1 })
        (fun _ => none) (fun _ _ => []) (fun _ => true) =
      { status := 400, detail := some "Incomplete sender data".data,
        store := fun _ => none, trace := [] } :=
  ⟨(webhook_sender_and_stub_priority upsertEvent _ (fun _ => none) (fun _ _ => [])
      (fun _ => true)).1 _ rfl rfl rfl rfl,
    (webhook_sender_and_stub_priority upsertEvent _ (fun _ => none) (fun _ _ => [])
      (fun _ => true)).2.2.2.1 _ rfl rfl rfl rfl⟩

/-! ## Conversation update policy (claim C5) -/

/-- C5 (confirmed, both copies): for a successfully processed inbound text
message whose generated reply is non-empty, the handler saves under the
sender's storage key exactly the loaded history with the user turn appended
first and the model turn appended second — existing turns are neither
reordered nor removed (the history is a prefix) — and it does so for EVERY
behaviour of the send capability, i.e. regardless of which (if any) chunk
deliveries failed. -/
theorem webhook_appends_two_turns (sender text : List Char) (store : StoreT)
    (gen : List Char → List JVal → List Char) (send send' : Nat → Bool)
    (hsender : sender ≠ []) (htext : text ≠ [])
    (hreply1 : gen text (loadConversationHistory (store (safeSenderIdOf sender))) ≠ [])
    (hreply2 : gen text (loadConversationHistory2 (store (safeSenderIdOf sender))) ≠ []) :
    (processWebhook1 upsertEvent (some (mkTextMessage sender text)) store gen send).store =
      saveConversationHistory store (safeSenderIdOf sender)
        (loadConversationHistory (store (safeSenderIdOf sender)) ++
          [mkTurn1 "user".data text,
            mkTurn1 "model".data
              (gen text (loadConversationHistory (store (safeSenderIdOf sender))))]) ∧
    (processWebhook1 upsertEvent (some (mkTextMessage sender text)) store gen send).store =
      (processWebhook1 upsertEvent (some (mkTextMessage sender text)) store gen send').store ∧
    (processWebhook2 upsertEvent (some (mkTextMessage sender text)) store gen send).store =
      saveConversationHistory store (safeSenderIdOf sender)
        (loadConversationHistory2 (store (safeSenderIdOf sender)) ++
          [mkTurn2 "user".data text,
            mkTurn2 "model".data
              (gen text (loadConversationHistory2 (store (safeSenderIdOf sender))))]) ∧
    (processWebhook2 upsertEvent (some (mkTextMessage sender text)) store gen send).store =
      (processWebhook2 upsertEvent (some (mkTextMessage sender text)) store gen send').store := by
  have h1 : ∀ s : Nat → Bool,
      (processWebhook1 upsertEvent (some (mkTextMessage sender text)) store gen s).store =
        saveConversationHistory store (safeSenderIdOf sender)
          (loadConversationHistory (store (safeSenderIdOf sender)) ++
            [mkTurn1 "user".data text,
              mkTurn1 "model".data
                (gen text (loadConversationHistory (store (safeSenderIdOf sender))))]) := by
    intro s
    simp [processWebhook1, mkTextMessage, keyFromMe, stubTruthy, senderTruthy, senderNumberOf,
      extractText1, jsTruthy, hsender, htext, hreply1]
  have h2 : ∀ s : Nat → Bool,
      (processWebhook2 upsertEvent (some (mkTextMessage sender text)) store gen s).store =
        saveConversationHistory store (safeSenderIdOf sender)
          (loadConversationHistory2 (store (safeSenderIdOf sender)) ++
            [mkTurn2 "user".data text,
              mkTurn2 "model".data
                (gen text (loadConversationHistory2 (store (safeSenderIdOf sender))))]) := by
    intro s
    simp [processWebhook2, mkTextMessage, keyFromMe, stubTruthy, senderTruthy, senderNumberOf,
      extractText2, jsTruthy, hsender, htext, hreply2]
  exact ⟨h1 send, (h1 send).trans (h1 send').symm, h2 send, (h2 send).trans (h2 send').symm⟩

/-- C5 witness: a concrete text message saved from the empty store, with a
send capability that fails every chunk — the two turns are still appended and
saved. -/
theorem webhook_appends_two_turns_witness :
    (processWebhook1 upsertEvent (some (mkTextMessage "55@net".data "hi".data))
        (fun _ => none) (fun _ _ => "ok".data) (fun _ => false)).store =
      saveConversationHistory (fun _ => none) (safeSenderIdOf "55@net".data)
        (loadConversationHistory ((fun _ => (none : StoredRecord))
            (safeSenderIdOf "55@net".data)) ++
          [mkTurn1 "user".data "hi".data,
            mkTurn1 "model".data
              ((fun _ _ => "ok".data) "hi".data
                (loadConversationHistory ((fun _ => (none : StoredRecord))
                  (safeSenderIdOf "55@net".data))))]) :=
  (webhook_appends_two_turns "55@net".data "hi".data (fun _ => none) (fun _ _ => "ok".data)
    (fun _ => false) (fun _ => true) (by decide) (by decide) (by decide) (by decide)).1

end WaBot
